import Mathlib

/-!
Verification development for `clearml/utilities/proxy_object.py`.

We give a shallow embedding of the module's data model and operations:

* Python values (`PVal`) restricted to the shapes the module manipulates:
  `None`, `bool`, `int`, `float` (as exact scaled decimals `m / 10^e`,
  adequate for the short decimal literals appearing here, whose `repr`
  round-trips exactly), `str`, `list`, `tuple`, and `dict` with string keys
  (every dictionary the module builds or parses in the verified scenarios
  has string keys; `flatten_dictionary` even forces `k = str(k)`).
* Python dictionaries as insertion-ordered association lists with unique
  keys (`Entries`); `dictSet` mirrors `d[k] = v` (replace in place or
  append), `dictUpdate` mirrors `dict.update`.
* The module's functions `convert_bool`, `cast_basic_type`,
  `get_basic_type`, `flatten_dictionary`, `nested_from_flat_dictionary`
  translated clause by clause, together with the parts of `json.loads`,
  `yaml.load` (SafeLoader, flow style) and the `int`/`float`/`str`/`list`/
  `tuple`/`dict` constructors that those functions invoke.
* The proxy classes `ProxyDictPostWrite`, `ProxyDictPreWrite`,
  `LazyEvalWrapper` and the factory `lazy_eval_wrapper_spec_class` as
  explicit state-passing functions.
-/

/-- Python values as manipulated by `proxy_object.py`.  A float is the exact
decimal `m / 10 ^ e`; a dict is an insertion-ordered association list with
string keys. -/
inductive PVal where
  | none : PVal
  | bool (b : Bool) : PVal
  | int (n : Int) : PVal
  | float (m : Int) (e : Nat) : PVal
  | str (s : String) : PVal
  | list (xs : List PVal) : PVal
  | tuple (xs : List PVal) : PVal
  | dict (entries : List (String × PVal)) : PVal

/-- A Python dictionary: insertion-ordered association list, unique keys. -/
abbrev Entries := List (String × PVal)

/-- `d.get(k)`: first (only) entry with key `k`. -/
def dictGet (d : Entries) (k : String) : Option PVal :=
  match d with
  | [] => Option.none
  | (k', v) :: rest => if k' = k then some v else dictGet rest k

/-- `d[k] = v`: replace the value at `k` keeping its position, else append. -/
def dictSet (d : Entries) (k : String) (v : PVal) : Entries :=
  match d with
  | [] => [(k, v)]
  | (k', v') :: rest => if k' = k then (k', v) :: rest else (k', v') :: dictSet rest k v

/-- `d.update(other)`: apply `dictSet` for each entry of `other` in order. -/
def dictUpdate (d : Entries) (other : Entries) : Entries :=
  other.foldl (fun acc kv => dictSet acc kv.1 kv.2) d

/-- Keys of a dictionary, in insertion order. -/
def dictKeys (d : Entries) : List String := d.map Prod.fst

/-- Characters Python's `str.strip()` removes. -/
def pyIsSpace (c : Char) : Bool :=
  c = ' ' ∨ c = '\t' ∨ c = '\n' ∨ c = '\r' ∨ c = '\x0b' ∨ c = '\x0c'

/-- `s.strip()`. -/
def pyStrip (s : String) : String :=
  ⟨(s.data.dropWhile pyIsSpace).reverse.dropWhile pyIsSpace |>.reverse⟩

/-- `s.lstrip(chars)`: drop leading characters belonging to `chars`. -/
def pyLStrip (s : String) (chars : List Char) : String :=
  ⟨s.data.dropWhile (chars.contains ·)⟩

/-- `s.rstrip(chars)`: drop trailing characters belonging to `chars`. -/
def pyRStrip (s : String) (chars : List Char) : String :=
  ⟨(s.data.reverse.dropWhile (chars.contains ·)).reverse⟩

/-- ASCII lower-casing of one character (the module only lower-cases ASCII
type tags and boolean literals). -/
def pyLowerChar (c : Char) : Char :=
  if 'A' ≤ c ∧ c ≤ 'Z' then Char.ofNat (c.toNat + 32) else c

/-- `s.lower()`. -/
def pyLower (s : String) : String := ⟨s.data.map pyLowerChar⟩

/-- `s.split(sep)` for a one-character separator (the module only splits on
`"/"`), on character lists. -/
def pySplitCharAux (sep : Char) (cur : List Char) : List Char → List (List Char)
  | [] => [cur.reverse]
  | c :: cs =>
    if c = sep then cur.reverse :: pySplitCharAux sep [] cs
    else pySplitCharAux sep (c :: cur) cs

/-- `s.split(sep)` for a one-character separator. -/
def pySplitChar (s : String) (sep : Char) : List String :=
  (pySplitCharAux sep [] s.data).map (fun l => ⟨l⟩)

/-- Numeric view of a value for Python `==`: `bool` is a subclass of `int`,
and a float `(m, e)` denotes `m / 10 ^ e`. -/
def pyNum : PVal → Option (Int × Nat)
  | .bool b => some (if b then 1 else 0, 0)
  | .int n => some (n, 0)
  | .float m e => some (m, e)
  | _ => Option.none

mutual

/-- Python `==` on the embedded values.  Numbers compare by value across
`bool`/`int`/`float`; lists and tuples compare elementwise (and never equal
each other); dictionaries compare as key→value maps, irrespective of
insertion order (both sides have unique keys). -/
def pyEq : PVal → PVal → Bool
  | .none, .none => true
  | .str a, .str b => a == b
  | .list a, .list b => pyEqList a b
  | .tuple a, .tuple b => pyEqList a b
  | .dict a, .dict b => a.length == b.length && pyEqEntriesSub a b
  | a, b =>
    match pyNum a, pyNum b with
    | some (m1, e1), some (m2, e2) => m1 * (10 : Int) ^ e2 == m2 * (10 : Int) ^ e1
    | _, _ => false

/-- Elementwise Python `==` on sequences. -/
def pyEqList : List PVal → List PVal → Bool
  | [], [] => true
  | a :: as', b :: bs => pyEq a b && pyEqList as' bs
  | _, _ => false

/-- Every entry of the first dictionary is present, with a `==` value, in the
second. -/
def pyEqEntriesSub : List (String × PVal) → List (String × PVal) → Bool
  | [], _ => true
  | (k, v) :: rest, d2 =>
    (match dictGet d2 k with
     | some v2 => pyEq v v2
     | Option.none => false) && pyEqEntriesSub rest d2

end

/-- Decimal digits of a natural number, most significant first (first
argument is fuel, always at least the number itself plus one). -/
def natDigits : Nat → Nat → List Char
  | 0, _ => []
  | fuel + 1, n =>
    if n < 10 then [Nat.digitChar n]
    else natDigits fuel (n / 10) ++ [Nat.digitChar (n % 10)]

/-- `str(n)` for a natural number. -/
def natRepr (n : Nat) : String := ⟨natDigits (n + 1) n⟩

/-- `str(n)` for a Python int. -/
def intRepr : Int → String
  | .ofNat n => natRepr n
  | .negSucc n => "-" ++ natRepr (n + 1)

/-- `repr` of the float `m / 10 ^ e`.  This matches Python's shortest
round-trip rendering for the floats this development manipulates, which are
all produced by parsing short decimal literals (so `m` has no trailing
zeros beyond the scale `e`). -/
def floatRepr (m : Int) (e : Nat) : String :=
  let sign := if m < 0 then "-" else ""
  let a := m.natAbs
  if e = 0 then sign ++ natRepr a ++ ".0"
  else
    let ds := (natRepr a).data
    let padded := List.replicate (e + 1 - ds.length) '0' ++ ds
    sign ++ ⟨padded.take (padded.length - e)⟩ ++ "." ++ ⟨padded.drop (padded.length - e)⟩

/-- `", "`-joined concatenation, as in Python's container `repr`s. -/
def joinComma : List String → String
  | [] => ""
  | [s] => s
  | s :: rest => s ++ ", " ++ joinComma rest

mutual

/-- Python `repr` of a value.  Strings are rendered with single quotes; the
verified scenarios contain no quote or escape characters inside strings. -/
def pyRepr : PVal → String
  | .none => "None"
  | .bool b => if b then "True" else "False"
  | .int n => intRepr n
  | .float m e => floatRepr m e
  | .str s => "'" ++ s ++ "'"
  | .list xs => "[" ++ joinComma (pyReprList xs) ++ "]"
  | .tuple [x] => "(" ++ pyRepr x ++ ",)"
  | .tuple xs => "(" ++ joinComma (pyReprList xs) ++ ")"
  | .dict d => "\x7b" ++ joinComma (pyReprEntries d) ++ "\x7d"

/-- `repr` of each element of a sequence. -/
def pyReprList : List PVal → List String
  | [] => []
  | x :: xs => pyRepr x :: pyReprList xs

/-- `"'k': repr(v)"` for each entry of a dictionary. -/
def pyReprEntries : List (String × PVal) → List String
  | [] => []
  | (k, v) :: rest => ("'" ++ k ++ "': " ++ pyRepr v) :: pyReprEntries rest

end

/-- Python `str(v)`: identity on strings, `repr` otherwise. -/
def pyStr : PVal → String
  | .str s => s
  | v => pyRepr v

/-- `type(v).__name__`. -/
def pyTypeName : PVal → String
  | .none => "NoneType"
  | .bool _ => "bool"
  | .int _ => "int"
  | .float _ _ => "float"
  | .str _ => "str"
  | .list _ => "list"
  | .tuple _ => "tuple"
  | .dict _ => "dict"

/-- `get_basic_type` (proxy_object.py lines 223-242): a non-empty
homogeneous list/tuple yields `"<container>/<elementType>"`, a non-empty
dict with homogeneous values yields `"dict/<valueType>"`, everything else
falls through to the bare type name. -/
def get_basic_type (value : PVal) : String :=
  match value with
  | .list (x :: xs) =>
    if xs.all (fun y => pyTypeName y == pyTypeName x) then "list/" ++ pyTypeName x
    else "list"
  | .tuple (x :: xs) =>
    if xs.all (fun y => pyTypeName y == pyTypeName x) then "tuple/" ++ pyTypeName x
    else "tuple"
  | .dict ((_, v0) :: rest) =>
    if rest.all (fun kv => pyTypeName kv.2 == pyTypeName v0) then "dict/" ++ pyTypeName v0
    else "dict"
  | v => pyTypeName v

/-- JSON whitespace skipping (`json.loads` tokenizer). -/
def jsonSkipWs : List Char → List Char
  | c :: cs => if c = ' ' ∨ c = '\t' ∨ c = '\n' ∨ c = '\r' then jsonSkipWs cs else c :: cs
  | [] => []

/-- Parse a run of decimal digits; fails on an empty run. -/
def parseDigits (cs : List Char) : Option (Nat × List Char) :=
  let ds := cs.takeWhile Char.isDigit
  if ds.isEmpty then Option.none
  else some (ds.foldl (fun n c => n * 10 + (c.toNat - 48)) 0, cs.drop ds.length)

/-- Parse a JSON number (strict grammar: optional `-`, integer part,
optional fraction).  Exponents never occur in the strings produced by
`str()` on the values under verification and are not modelled. -/
def jsonParseNumber (cs : List Char) : Except Unit (PVal × List Char) :=
  let (neg, cs1) := match cs with
    | '-' :: rest => (true, rest)
    | _ => (false, cs)
  match parseDigits cs1 with
  | Option.none => .error ()
  | some (ip, cs2) =>
    match cs2 with
    | '.' :: cs3 =>
      match parseDigits cs3 with
      | Option.none => .error ()
      | some (fp, cs4) =>
        let e := (cs3.takeWhile Char.isDigit).length
        let m : Int := (ip * 10 ^ e + fp : Nat)
        .ok (.float (if neg then -m else m) e, cs4)
    | _ => .ok (.int (if neg then -(ip : Int) else (ip : Nat)), cs2)

/-- Parse the body of a JSON double-quoted string (no escape sequences occur
in the verified inputs; a backslash makes the parse fail). -/
def jsonParseStringBody : List Char → Except Unit (String × List Char)
  | [] => .error ()
  | c :: cs =>
    if c = '"' then .ok ("", cs)
    else if c = '\\' then .error ()
    else
      match jsonParseStringBody cs with
      | .ok (s, rest) => .ok (⟨c :: s.data⟩, rest)
      | .error e => .error e

mutual

/-- Recursive-descent parser for the JSON fragment `json.loads` is applied
to in `cast_basic_type`: null/true/false, double-quoted strings, numbers,
arrays and objects.  The fuel argument bounds the nesting depth. -/
def jsonParseVal : Nat → List Char → Except Unit (PVal × List Char)
  | 0, _ => .error ()
  | fuel + 1, cs =>
    match jsonSkipWs cs with
    | [] => .error ()
    | c :: rest =>
      if c = 'n' then
        match rest with
        | 'u' :: 'l' :: 'l' :: rest' => .ok (.none, rest')
        | _ => .error ()
      else if c = 't' then
        match rest with
        | 'r' :: 'u' :: 'e' :: rest' => .ok (.bool true, rest')
        | _ => .error ()
      else if c = 'f' then
        match rest with
        | 'a' :: 'l' :: 's' :: 'e' :: rest' => .ok (.bool false, rest')
        | _ => .error ()
      else if c = '"' then
        match jsonParseStringBody rest with
        | .ok (s, rest') => .ok (.str s, rest')
        | .error e => .error e
      else if c = '[' then
        match jsonSkipWs rest with
        | ']' :: rest' => .ok (.list [], rest')
        | rest' => jsonParseArrItems fuel rest' []
      else if c = '{' then
        match jsonSkipWs rest with
        | '}' :: rest' => .ok (.dict [], rest')
        | rest' => jsonParseObjItems fuel rest' []
      else jsonParseNumber (c :: rest)

/-- Comma-separated array elements up to `]` (accumulator reversed). -/
def jsonParseArrItems (fuel : Nat) (cs : List Char) (acc : List PVal) :
    Except Unit (PVal × List Char) :=
  match fuel with
  | 0 => .error ()
  | fuel + 1 =>
    match jsonParseVal fuel cs with
    | .error e => .error e
    | .ok (v, rest) =>
      match jsonSkipWs rest with
      | ',' :: rest' => jsonParseArrItems fuel rest' (v :: acc)
      | ']' :: rest' => .ok (.list (v :: acc).reverse, rest')
      | _ => .error ()

/-- Comma-separated `"key": value` object members up to `}`; later
occurrences of a key overwrite earlier ones, as in `dict` construction. -/
def jsonParseObjItems (fuel : Nat) (cs : List Char) (acc : Entries) :
    Except Unit (PVal × List Char) :=
  match fuel with
  | 0 => .error ()
  | fuel + 1 =>
    match jsonSkipWs cs with
    | '"' :: rest =>
      match jsonParseStringBody rest with
      | .error e => .error e
      | .ok (k, rest1) =>
        match jsonSkipWs rest1 with
        | ':' :: rest2 =>
          match jsonParseVal fuel rest2 with
          | .error e => .error e
          | .ok (v, rest3) =>
            match jsonSkipWs rest3 with
            | ',' :: rest4 => jsonParseObjItems fuel rest4 (dictSet acc k v)
            | '}' :: rest4 => .ok (.dict (dictSet acc k v), rest4)
            | _ => .error ()
        | _ => .error ()
    | _ => .error ()

end

/-- `json.loads(s)`: parse one value and require only whitespace after it. -/
def jsonLoads (s : String) : Except Unit PVal :=
  match jsonParseVal (s.data.length + 1) s.data with
  | .ok (v, rest) => if (jsonSkipWs rest).isEmpty then .ok v else .error ()
  | .error e => .error e

/-- Resolve a YAML plain scalar (SafeLoader): booleans, null, integers,
decimal floats, otherwise a string. -/
def yamlResolveScalar (tok : List Char) : PVal :=
  let s : String := ⟨tok⟩
  if s = "true" ∨ s = "True" ∨ s = "TRUE" then .bool true
  else if s = "false" ∨ s = "False" ∨ s = "FALSE" then .bool false
  else if s = "null" ∨ s = "Null" ∨ s = "NULL" ∨ s = "~" ∨ s = "" then .none
  else
    match jsonParseNumber tok with
    | .ok (v, []) => v
    | _ => .str s

/-- Characters ending a YAML plain scalar in flow context. -/
def yamlFlowEnd (c : Char) : Bool :=
  c = ',' ∨ c = ']' ∨ c = '}' ∨ c = ':' ∨ c = ' ' ∨ c = '\t' ∨ c = '\n' ∨ c = '\r'

mutual

/-- Parser for the YAML flow-style fragment that `yaml.load(...,
SafeLoader)` sees in `cast_basic_type`'s legacy fallback: flow sequences,
flow mappings with scalar string keys, single-quoted strings and plain
scalars.  The fuel bounds the nesting depth. -/
def yamlParseVal : Nat → List Char → Except Unit (PVal × List Char)
  | 0, _ => .error ()
  | fuel + 1, cs =>
    match jsonSkipWs cs with
    | [] => .error ()
    | c :: rest =>
      if c = '[' then
        match jsonSkipWs rest with
        | ']' :: rest' => .ok (.list [], rest')
        | rest' => yamlParseSeqItems fuel rest' []
      else if c = '{' then
        match jsonSkipWs rest with
        | '}' :: rest' => .ok (.dict [], rest')
        | rest' => yamlParseMapItems fuel rest' []
      else if c = '\'' then
        match jsonParseStringBody (rest.map (fun d => if d = '\'' then '"' else d)) with
        | .ok (s, rest') => .ok (.str s, rest.drop (rest.length - rest'.length))
        | .error e => .error e
      else
        let tok := (c :: rest).takeWhile (fun d => ¬ yamlFlowEnd d)
        .ok (yamlResolveScalar tok, (c :: rest).drop tok.length)

/-- Comma-separated flow-sequence elements up to `]`. -/
def yamlParseSeqItems (fuel : Nat) (cs : List Char) (acc : List PVal) :
    Except Unit (PVal × List Char) :=
  match fuel with
  | 0 => .error ()
  | fuel + 1 =>
    match yamlParseVal fuel cs with
    | .error e => .error e
    | .ok (v, rest) =>
      match jsonSkipWs rest with
      | ',' :: rest' => yamlParseSeqItems fuel rest' (v :: acc)
      | ']' :: rest' => .ok (.list (v :: acc).reverse, rest')
      | _ => .error ()

/-- Comma-separated `key: value` flow-mapping members up to `}`.  Keys must
resolve to strings (the only key shape in the verified inputs). -/
def yamlParseMapItems (fuel : Nat) (cs : List Char) (acc : Entries) :
    Except Unit (PVal × List Char) :=
  match fuel with
  | 0 => .error ()
  | fuel + 1 =>
    match yamlParseVal fuel cs with
    | .error e => .error e
    | .ok (kv, rest) =>
      match kv with
      | .str k =>
        match jsonSkipWs rest with
        | ':' :: rest1 =>
          match yamlParseVal fuel rest1 with
          | .error e => .error e
          | .ok (v, rest2) =>
            match jsonSkipWs rest2 with
            | ',' :: rest3 => yamlParseMapItems fuel rest3 (dictSet acc k v)
            | '}' :: rest3 => .ok (.dict (dictSet acc k v), rest3)
            | _ => .error ()
        | _ => .error ()
      | _ => .error ()

end

/-- `yaml.load(s, Loader=yaml.SafeLoader)` on the flow-style fragment. -/
def yamlLoads (s : String) : Except Unit PVal :=
  match yamlParseVal (s.data.length + 1) s.data with
  | .ok (v, rest) => if (jsonSkipWs rest).isEmpty then .ok v else .error ()
  | .error e => .error e

/-- `int(s)` on a string: strip whitespace, optional sign, decimal digits. -/
def pyIntOfString (s : String) : Except Unit Int :=
  let cs := (pyStrip s).data
  let (neg, cs1) := match cs with
    | '-' :: rest => (true, rest)
    | '+' :: rest => (false, rest)
    | _ => (false, cs)
  match parseDigits cs1 with
  | some (n, []) => .ok (if neg then -(n : Int) else (n : Nat))
  | _ => .error ()

/-- `float(s)` on a string: strip whitespace, optional sign, decimal digits
with an optional fractional part (exponents and inf/nan are not modelled;
they never occur in the verified inputs). -/
def pyFloatOfString (s : String) : Except Unit (Int × Nat) :=
  let cs := (pyStrip s).data
  let (neg, cs1) := match cs with
    | '-' :: rest => (true, rest)
    | '+' :: rest => (false, rest)
    | _ => (false, cs)
  match parseDigits cs1 with
  | some (ip, []) => .ok (if neg then -(ip : Int) else (ip : Nat), 0)
  | some (ip, '.' :: cs2) =>
    match parseDigits cs2 with
    | some (fp, []) =>
      let e := (cs2.takeWhile Char.isDigit).length
      let m : Int := (ip * 10 ^ e + fp : Nat)
      .ok (if neg then -m else m, e)
    | _ => if cs2.isEmpty then .ok (if neg then -(ip : Int) else (ip : Nat), 0) else .error ()
  | _ =>
    match cs1 with
    | '.' :: cs2 =>
      match parseDigits cs2 with
      | some (fp, []) =>
        let e := (cs2.takeWhile Char.isDigit).length
        .ok (if neg then -(fp : Int) else (fp : Nat), e)
      | _ => .error ()
    | _ => .error ()

/-- The `int` constructor as invoked by `cast_basic_type`: parses strings,
passes ints through, converts bools, truncates floats toward zero; anything
else raises. -/
def pyIntCtor : PVal → Except Unit PVal
  | .str s => (pyIntOfString s).map .int
  | .int n => .ok (.int n)
  | .bool b => .ok (.int (if b then 1 else 0))
  | .float m e => .ok (.int (m.tdiv ((10 : Int) ^ e)))
  | _ => .error ()

/-- The `float` constructor as invoked by `cast_basic_type`. -/
def pyFloatCtor : PVal → Except Unit PVal
  | .str s => (pyFloatOfString s).map (fun me => .float me.1 me.2)
  | .int n => .ok (.float n 0)
  | .bool b => .ok (.float (if b then 1 else 0) 0)
  | .float m e => .ok (.float m e)
  | _ => .error ()

/-- The `str` constructor: `str(v)` never raises. -/
def pyStrCtor (v : PVal) : Except Unit PVal := .ok (.str (pyStr v))

/-- The `list` constructor on an iterable. -/
def pyListCtor : PVal → Except Unit PVal
  | .list xs => .ok (.list xs)
  | .tuple xs => .ok (.list xs)
  | .str s => .ok (.list (s.data.map (fun c => .str ⟨[c]⟩)))
  | .dict d => .ok (.list (d.map (fun kv => .str kv.1)))
  | _ => .error ()

/-- The `tuple` constructor on an iterable. -/
def pyTupleCtor : PVal → Except Unit PVal
  | .list xs => .ok (.tuple xs)
  | .tuple xs => .ok (.tuple xs)
  | .str s => .ok (.tuple (s.data.map (fun c => .str ⟨[c]⟩)))
  | .dict d => .ok (.tuple (d.map (fun kv => .str kv.1)))
  | _ => .error ()

/-- One element of the iterable given to the `dict` constructor, viewed as a
`(key, value)` pair: a two-element list/tuple, a two-character string, or —
crucially — a two-key dict, which iterates as its two KEYS, so the second
key becomes the stored value. -/
def pyDictCtorPair : PVal → Except Unit (String × PVal)
  | .list [.str k, v] => .ok (k, v)
  | .tuple [.str k, v] => .ok (k, v)
  | .dict [(k1, _), (k2, _)] => .ok (k1, .str k2)
  | .str s =>
    match s.data with
    | [c1, c2] => .ok (⟨[c1]⟩, .str ⟨[c2]⟩)
    | _ => .error ()
  | _ => .error ()

/-- The `dict` constructor on a dict (copy) or an iterable of pairs. -/
def pyDictCtor : PVal → Except Unit PVal
  | .dict d => .ok (.dict d)
  | .list xs =>
    xs.foldlM (fun acc x => (pyDictCtorPair x).map (fun kv => dictSet acc kv.1 kv.2)) []
      |>.map .dict
  | .tuple xs =>
    xs.foldlM (fun acc x => (pyDictCtorPair x).map (fun kv => dictSet acc kv.1 kv.2)) []
      |>.map .dict
  | _ => .error ()

/-- `convert_bool` (proxy_object.py lines 154-160): strip and lower-case the
string; exactly `"true"` is `True`, `"false"` or the empty string is
`False`, anything else raises `ValueError`.  A non-string argument raises
(`.strip()` is missing) as well. -/
def convert_bool : PVal → Except Unit PVal
  | .str s =>
    let t := pyLower (pyStrip s)
    if t = "true" then .ok (.bool true)
    else if t = "false" ∨ t = "" then .ok (.bool false)
    else .error ()
  | _ => .error ()

/-- The `basic_types` lookup table of `cast_basic_type` (lines 170-171):
type name → constructor, with `"bool"` mapped to `convert_bool`. -/
def basic_types_lookup (name : String) : Option (PVal → Except Unit PVal) :=
  if name = "float" then some pyFloatCtor
  else if name = "int" then some pyIntCtor
  else if name = "str" then some pyStrCtor
  else if name = "list" then some pyListCtor
  else if name = "tuple" then some pyTupleCtor
  else if name = "dict" then some pyDictCtor
  else if name = "bool" then some convert_bool
  else Option.none

/-- The string argument of `json.loads` / `.lstrip` (a non-string raises,
which the surrounding `try` converts into the next fallback). -/
def asPyStr : PVal → Except Unit String
  | .str s => .ok s
  | _ => .error ()

/-- `cast_basic_type` (proxy_object.py lines 163-200).  Empty tag: empty
string becomes `None`, anything else is returned unchanged.  Container tags
(`list`/`tuple`/`dict` before the first `/`): try `json.loads` and the
container constructor; on any failure re-wrap the trimmed string in
brackets, try `yaml.load` and the constructor; on failure log a warning and
return the value unchanged.  Other tags: look up the constructor under the
lower-cased, stripped tag and apply it, returning the value unchanged if it
raises or if the tag is unknown. -/
def cast_basic_type (value : PVal) (type_str : String) : PVal :=
  if type_str = "" then
    if pyEq value (.str "") then .none else value
  else
    let parts := pySplitChar type_str '/'
    if parts.headD "" = "list" ∨ parts.headD "" = "tuple" ∨ parts.headD "" = "dict" then
      let ctor := (basic_types_lookup (parts.headD "")).getD (fun _ => .error ())
      let strict : Except Unit PVal := do
        let s ← asPyStr value
        let j ← jsonLoads s
        ctor j
      match strict with
      | .ok r => r
      | .error _ =>
        let legacy : Except Unit PVal := do
          let s ← asPyStr value
          let y ← yamlLoads ("[" ++ pyRStrip (pyLStrip s ['[', '(']) [']', ')'] ++ "]")
          ctor y
        match legacy with
        | .ok r => r
        | .error _ => value
    else
      match basic_types_lookup (pyStrip (pyLower type_str)) with
      | some t =>
        match t value with
        | .ok r => r
        | .error _ => value
      | Option.none => value

/-- Is the value one of the "basic types" `(float, int, bool, str)` used by
`flatten_dictionary` / `nested_from_flat_dictionary`? -/
def isBasicScalar : PVal → Bool
  | .float _ _ => true
  | .int _ => true
  | .bool _ => true
  | .str _ => true
  | _ => false

mutual

/-- The loop of `flatten_dictionary` (proxy_object.py lines 245-269),
folding each item of `a_dict` into the accumulator `flat_dict` (which the
function initialises to `{}`). -/
def flatten_dictionary_loop : Entries → String → String → Entries → Entries
  | [], _, _, flat_dict => flat_dict
  | (k, v) :: rest, pre, sep, flat_dict =>
    flatten_dictionary_loop rest pre sep (flatten_dictionary_item k v pre sep flat_dict)

/-- One iteration of the loop in `flatten_dictionary`: basic scalars and
list/tuple values are stored under `pre + k` (the homogeneous-elements test
and the final mixed-value fallback store the value verbatim either way);
a dict is flattened recursively under `pre + k + sep`, and — if that
recursion produces an empty dict — an empty dict is stored under the BARE
key `k` (the prefix is not applied on this one branch). -/
def flatten_dictionary_item (k : String) (v : PVal) (pre sep : String)
    (flat_dict : Entries) : Entries :=
  match v with
  | .float m e => dictSet flat_dict (pre ++ k) (.float m e)
  | .int n => dictSet flat_dict (pre ++ k) (.int n)
  | .bool b => dictSet flat_dict (pre ++ k) (.bool b)
  | .str s => dictSet flat_dict (pre ++ k) (.str s)
  | .list xs =>
    if xs.all isBasicScalar then dictSet flat_dict (pre ++ k) (.list xs)
    else dictSet flat_dict (pre ++ k) (.list xs)
  | .tuple xs =>
    if xs.all isBasicScalar then dictSet flat_dict (pre ++ k) (.tuple xs)
    else dictSet flat_dict (pre ++ k) (.tuple xs)
  | .dict d =>
    let nested_flat_dict := flatten_dictionary_loop d (pre ++ k ++ sep) sep []
    if nested_flat_dict.isEmpty then dictSet flat_dict k (.dict [])
    else dictUpdate flat_dict nested_flat_dict
  | .none => dictSet flat_dict (pre ++ k) .none

end

/-- `flatten_dictionary(a_dict, prefix, sep)`. -/
def flatten_dictionary (a_dict : Entries) (pre sep : String) : Entries :=
  flatten_dictionary_loop a_dict pre sep []

mutual

/-- `nested_from_flat_dictionary` (proxy_object.py lines 272-292) as a pure
function of its inputs: each key of `a_dict` keeps its position, its value
being replaced per `nested_from_flat_item`.  (The Python function mutates
`a_dict` in place and returns it; the pure reading is the overlay result.) -/
def nested_from_flat_dictionary_loop : Entries → Entries → String → String → Entries
  | [], _, _, _ => []
  | (k, v) :: rest, flat_dict, pre, sep =>
    (k, nested_from_flat_item k v flat_dict pre sep) ::
      nested_from_flat_dictionary_loop rest flat_dict pre sep

/-- One item of `nested_from_flat_dictionary`: scalars, list/tuple values
and mixed values are all replaced by `flat_dict.get(pre + k, v)` (the three
non-dict branches run the same expression); a dict value is overlaid
recursively, the original kept when the recursion yields a falsy (empty)
dict (`... or v`). -/
def nested_from_flat_item (k : String) (v : PVal) (flat_dict : Entries)
    (pre sep : String) : PVal :=
  match v with
  | .dict d =>
    let r := nested_from_flat_dictionary_loop d flat_dict (pre ++ k ++ sep) sep
    if r.isEmpty then .dict d else .dict r
  | w => (dictGet flat_dict (pre ++ k)).getD w

end

/-- `nested_from_flat_dictionary(a_dict, flat_dict, prefix, sep)`. -/
def nested_from_flat_dictionary (a_dict flat_dict : Entries) (pre sep : String) : Entries :=
  nested_from_flat_dictionary_loop a_dict flat_dict pre sep

/-- A key is free of the separator character `'/'`. -/
def slashFree (k : String) : Bool := k.data.all (fun c => c != '/')

mutual

/-- Values inside the domain of the round-trip property: basic scalars,
sequences of basic scalars, and non-empty dictionaries of such values with
separator-free, pairwise-distinct string keys. -/
def goodVal : PVal → Bool
  | .float _ _ => true
  | .int _ => true
  | .bool _ => true
  | .str _ => true
  | .list xs => xs.all isBasicScalar
  | .tuple xs => xs.all isBasicScalar
  | .dict d => !d.isEmpty && goodEntries d
  | .none => false

/-- Dictionaries inside the domain of the round-trip property. -/
def goodEntries : Entries → Bool
  | [] => true
  | (k, v) :: rest =>
    slashFree k && rest.all (fun kv => kv.1 != k) && goodVal v && goodEntries rest

end

mutual

/-- The path→value map of the leaves of a dictionary (separator `"/"`):
what `flatten_dictionary` computes on the round-trip domain. -/
def flatLeaves : Entries → String → Entries
  | [], _ => []
  | (k, v) :: rest, pre => flatLeavesItem k v pre ++ flatLeaves rest pre

/-- Leaves contributed by a single entry: a nested dictionary contributes
its own leaves under the extended prefix, anything else is a leaf. -/
def flatLeavesItem (k : String) (v : PVal) (pre : String) : Entries :=
  match v with
  | .dict d => flatLeaves d (pre ++ k ++ "/")
  | w => [(pre ++ k, w)]

end

/-- An empty-or-slash-headed tail. -/
def slashTail (s : List Char) : Prop := s = [] ∨ ∃ t, s = '/' :: t

/-- Write `d[k] = v` at the nested dictionary reached from `root` through the
keys of `path` (root-first); `Option.none` if the path does not reach a
nested dictionary (no wrapped child exists there). -/
def setAtPath : Entries → List String → String → PVal → Option Entries
  | d, [], k, v => some (dictSet d k v)
  | d, p :: ps, k, v =>
    match dictGet d p with
    | some (.dict d') => (setAtPath d' ps k v).map (fun r => dictSet d p (.dict r))
    | _ => Option.none

/-- Semantics of invoking `ProxyDictPostWrite._set_callback` (lines 36-38)
on the proxy node whose chain of enclosing proxies is `ancestors` (innermost
parent first, `[]` for the root).  Construction wires every nested child's
`_update_func` to its parent's bound `_set_callback` (line 26), whose `*_`
signature ignores the arguments it receives, while the root's
`_update_func` is the user's callback, invoked as
`update_func(self._update_obj, self)` with `self` the root.  The result
lists the user-callback invocations, each recorded as its argument pair. -/
def post_set_callback {α : Type} (update_obj : α) (root : Entries) :
    List String → List (α × Entries)
  | [] => [(update_obj, root)]
  | _ :: ancestors => post_set_callback update_obj root ancestors

/-- `ProxyDictPostWrite.__setitem__` (lines 29-31) performed on the proxy
node at `path` below the root: mutate storage through `dict.__setitem__`,
then fire `_set_callback`.  Returns the new root together with the list of
user-callback invocations. -/
def post_setitem {α : Type} (update_obj : α) (root : Entries) (path : List String)
    (k : String) (v : PVal) : Option (Entries × List (α × Entries)) :=
  match setAtPath root path k v with
  | some r => some (r, post_set_callback update_obj r path.reverse)
  | Option.none => Option.none

/-- `ProxyDictPostWrite.update` (lines 52-63): `_do_update` merges the
entries through `dict.update` (which bypasses `__setitem__`, and the
wrapping construction in `_do_update` fires no callback either), then a
single `_set_callback`. -/
def post_update {α : Type} (update_obj : α) (root : Entries) (e : Entries) :
    Entries × List (α × Entries) :=
  let r := dictUpdate root e
  (r, post_set_callback update_obj r [])

/-- `ProxyDictPreWrite._set_callback` (lines 97-107) for a callable
`_update_func`: invoke it on `(update_obj, key_value)`; a falsy result
(modelled `Option.none`) yields `None`, and a returned `(key, value)` pair
(always truthy) is passed through. -/
def pre_set_callback {α : Type} (update_obj : α)
    (update_func : α → String × PVal → Option (String × PVal))
    (key_value : String × PVal) : Option (String × PVal) :=
  match update_func update_obj key_value with
  | some res => some res
  | Option.none => Option.none

/-- `ProxyDictPreWrite.__setitem__` (lines 87-95): route the write through
`_set_callback`; store the (possibly rewritten) pair if one comes back,
otherwise leave the storage untouched (and raise nothing). -/
def pre_setitem {α : Type} (update_obj : α)
    (update_func : α → String × PVal → Option (String × PVal))
    (d : Entries) (key : String) (value : PVal) : Entries :=
  match pre_set_callback update_obj update_func (key, value) with
  | some kv => dictSet d kv.1 kv.2
  | Option.none => d

/-- The callback chain seen by a write into a nested `ProxyDictPreWrite`
child.  `ancestor_keys` lists the wrapping keys from the writing node's own
key up to (and excluding) the root: construction (lines 78-80) wraps the
nested dict stored under `k` as `ProxyDictPreWrite(k, self._nested_callback,
i)`, so a non-root node's `_set_callback` invokes the parent's
`_nested_callback(k, key_value)` (lines 109-115), which prefixes the key
with `k + "."` and feeds the result to the parent's own `_set_callback`,
whose falsy-check is then re-applied on the way back down (lines 104-106). -/
def pre_set_callback_chain {α : Type} (update_obj : α)
    (update_func : α → String × PVal → Option (String × PVal)) :
    List String → String × PVal → Option (String × PVal)
  | [], kv => pre_set_callback update_obj update_func kv
  | p :: ancestors, kv =>
    match pre_set_callback_chain update_obj update_func ancestors
        (p ++ "." ++ kv.1, kv.2) with
    | some res => some res
    | Option.none => Option.none

/-- Dotted join: `dotJoin [p1, ..., pn] k = p1 + "." + ... + pn + "." + k`. -/
def dotJoin : List String → String → String
  | [], k => k
  | p :: ps, k => p ++ "." ++ dotJoin ps k

/-- `LazyEvalWrapper` resolution state: the `_wrapped` attribute and the
number of `_callback` invocations so far (instrumentation used to state the
resolution-once property; the callback takes the invocation count so a
stateful producer can be modelled).  A Python object that may be `None` is
an `Option V`, with `Option.none` standing for Python's `None`; `_wrapped`
holds such a value, initialised to `None`, and the SAME slot doubles as the
resolution flag: line 513 tests `obj is None`, so a cached `None` result is
indistinguishable from an unresolved handle. -/
structure LazyState (V : Type) where
  wrapped : Option V
  calls : Nat

/-- The fresh state after `LazyEvalWrapper.__init__` (lines 477-482):
`_wrapped = None`, producer never invoked. -/
def initLazy {V : Type} : LazyState V := ⟨Option.none, 0⟩

/-- `LazyEvalWrapper._load_object` (lines 510-517), shared verbatim by the
forwarding methods minted by `WrapperBase.__new__` (lines 433-438): if
`_wrapped` is `None` (line 513 — this is the only cache test, so a producer
that legitimately returns `None` is re-invoked on every operation), invoke
`_callback`; a raised exception (`.error`) propagates and `_wrapped` is NOT
assigned (line 516 is skipped); a returned object — `None` included — is
assigned to `_wrapped` (line 516). -/
def load_object {V E : Type} (callback : Nat → Except E (Option V)) (s : LazyState V) :
    Except E (Option V) × LazyState V :=
  match s.wrapped with
  | some obj => (.ok (some obj), s)
  | Option.none =>
    match callback s.calls with
    | .ok obj => (.ok obj, ⟨obj, s.calls + 1⟩)
    | .error e => (.error e, ⟨Option.none, s.calls + 1⟩)

/-- `n` successive forwarded operations on one handle: every forwarded
operation (comparison, arithmetic, truthiness, `str`, attribute access, …)
first resolves via `_load_object` and then acts on the resolved object, so
the value each operation observes is the one `_load_object` returns. -/
def run_ops {V E : Type} (callback : Nat → Except E (Option V)) :
    Nat → LazyState V → List (Except E (Option V)) × LazyState V
  | 0, s => ([], s)
  | n + 1, s =>
    let (r, s') := load_object callback s
    let (rs, s'') := run_ops callback n s'
    (r :: rs, s'')

/-- `LazyEvalWrapper.__init__` (lines 481-482): a supplied remote reference
is appended to the class-level `_remote_reference_calls` registry. -/
def lazy_init_registry {R : Type} (remote_reference : Option R) (registry : List R) : List R :=
  match remote_reference with
  | some r => registry ++ [r]
  | Option.none => registry

/-- `TypedLazyEvalWrapper.__init__` (lines 532-534): the constructor takes
only the producer callback; nothing touches the registry. -/
def typed_init_registry {R : Type} (registry : List R) : List R := registry

/-- Result of an attribute query on a typed lazy wrapper. -/
inductive AttrResult (V : Type) where
  | pyNone : AttrResult V
  | classType (name : String) : AttrResult V
  | attr (obj : V) (name : String) : AttrResult V

/-- `TypedLazyEvalWrapper.__getattribute__` (lines 542-548):
`__isabstractmethod__` answers `None`, `__class__` answers the DECLARED
`class_type` without touching `_load_object`, and every other attribute is
taken from the resolved object (which may itself be Python's `None`). -/
def typed_getattribute {V E : Type} (class_type : String)
    (callback : Nat → Except E (Option V)) (s : LazyState V) (attr : String) :
    Except E (AttrResult (Option V)) × LazyState V :=
  if attr = "__isabstractmethod__" then (.ok .pyNone, s)
  else if attr = "__class__" then (.ok (.classType class_type), s)
  else
    match load_object callback s with
    | (.ok obj, s') => (.ok (.attr obj attr), s')
    | (.error e, s') => (.error e, s')

theorem data_append (s t : String) : (s ++ t).data = s.data ++ t.data := rfl

theorem str_ext {s t : String} (h : s.data = t.data) : s = t := by
  cases s; cases t; exact congrArg String.mk h

/-- Two slash-free segments followed by empty-or-slash-headed tails can only
concatenate to the same character list if both parts agree. -/
theorem seg_disj : ∀ {a b t u : List Char}, (∀ c ∈ a, c ≠ '/') → (∀ c ∈ b, c ≠ '/') →
    (t = [] ∨ ∃ t', t = '/' :: t') → (u = [] ∨ ∃ u', u = '/' :: u') →
    a ++ t = b ++ u → a = b ∧ t = u := by
  intro a
  induction a with
  | nil =>
    intro b t u _ hb ht hu h
    cases b with
    | nil => exact ⟨rfl, h⟩
    | cons c bs =>
      exfalso
      rcases ht with rfl | ⟨t', rfl⟩
      · simp at h
      · rw [List.nil_append, List.cons_append] at h
        injection h with h1 _
        exact hb c (by simp) h1.symm
  | cons c as ih =>
    intro b t u ha hb ht hu h
    cases b with
    | nil =>
      exfalso
      rcases hu with rfl | ⟨u', rfl⟩
      · simp at h
      · rw [List.cons_append, List.nil_append] at h
        injection h with h1 _
        exact ha c (by simp) h1
    | cons c' bs =>
      simp only [List.cons_append, List.cons.injEq] at h
      obtain ⟨rfl, h2⟩ := h
      obtain ⟨h3, h4⟩ := ih (fun x hx => ha x (by simp [hx])) (fun x hx => hb x (by simp [hx])) ht hu h2
      exact ⟨by rw [h3], h4⟩

theorem slashFree_spec {k : String} (h : slashFree k = true) : ∀ c ∈ k.data, c ≠ '/' := by
  intro c hc
  have := List.all_eq_true.mp h c hc
  simpa using this

theorem goodEntries_cons {k : String} {v : PVal} {rest : Entries}
    (h : goodEntries ((k, v) :: rest) = true) :
    slashFree k = true ∧ (∀ kv ∈ rest, kv.1 ≠ k) ∧ goodVal v = true ∧ goodEntries rest = true := by
  simp only [goodEntries, Bool.and_eq_true] at h
  refine ⟨h.1.1.1, fun kv hkv => ?_, h.1.2, h.2⟩
  have := List.all_eq_true.mp h.1.1.2 kv hkv
  simpa using this

theorem goodEntries_mem : ∀ {d : Entries} {k : String} {v : PVal},
    goodEntries d = true → (k, v) ∈ d → slashFree k = true ∧ goodVal v = true := by
  intro d
  induction d with
  | nil => intro k v _ hm; simp at hm
  | cons kv rest ih =>
    intro k v h hm
    obtain ⟨k', v'⟩ := kv
    obtain ⟨h1, _, h3, h4⟩ := goodEntries_cons h
    rcases List.mem_cons.mp hm with heq | hmem
    · obtain ⟨rfl, rfl⟩ := Prod.mk.injEq .. ▸ heq
      exact ⟨h1, h3⟩
    · exact ih h4 hmem

theorem goodVal_dict {d : Entries} (h : goodVal (.dict d) = true) :
    d ≠ [] ∧ goodEntries d = true := by
  simp only [goodVal, Bool.and_eq_true] at h
  exact ⟨by simpa using h.1, h.2⟩

mutual

/-- Every leaf path of a dictionary decomposes as prefix, then the key of
one of its entries, then an empty or slash-headed tail. -/
theorem flatLeaves_shape : ∀ (d : Entries) (pre : String) (p : String) (w : PVal),
    (p, w) ∈ flatLeaves d pre →
    ∃ k₀ w₀ s, (k₀, w₀) ∈ d ∧ p.data = pre.data ++ k₀.data ++ s ∧ slashTail s := by
  intro d pre p w hm
  match d with
  | [] => simp [flatLeaves] at hm
  | (k, v) :: rest =>
    rw [flatLeaves, List.mem_append] at hm
    rcases hm with hm | hm
    · obtain ⟨s, hs, ht⟩ := flatLeavesItem_shape k v pre p w hm
      exact ⟨k, v, s, by simp, hs, ht⟩
    · obtain ⟨k₀, w₀, s, hk, hs, ht⟩ := flatLeaves_shape rest pre p w hm
      exact ⟨k₀, w₀, s, by simp [hk], hs, ht⟩

/-- Every leaf path contributed by the entry `(k, v)` decomposes as prefix,
then `k`, then an empty or slash-headed tail. -/
theorem flatLeavesItem_shape : ∀ (k : String) (v : PVal) (pre : String) (p : String) (w : PVal),
    (p, w) ∈ flatLeavesItem k v pre →
    ∃ s, p.data = pre.data ++ k.data ++ s ∧ slashTail s := by
  intro k v pre p w hm
  cases v with
  | dict d =>
    simp only [flatLeavesItem] at hm
    obtain ⟨k₀, w₀, s, _, hs, ht⟩ := flatLeaves_shape d (pre ++ k ++ "/") p w hm
    refine ⟨'/' :: (k₀.data ++ s), ?_, Or.inr ⟨k₀.data ++ s, rfl⟩⟩
    rw [hs]
    simp [data_append]
  | float m e =>
    simp only [flatLeavesItem, List.mem_singleton, Prod.mk.injEq] at hm
    exact ⟨[], by simp [hm.1, data_append], Or.inl rfl⟩
  | int n =>
    simp only [flatLeavesItem, List.mem_singleton, Prod.mk.injEq] at hm
    exact ⟨[], by simp [hm.1, data_append], Or.inl rfl⟩
  | bool b =>
    simp only [flatLeavesItem, List.mem_singleton, Prod.mk.injEq] at hm
    exact ⟨[], by simp [hm.1, data_append], Or.inl rfl⟩
  | str s' =>
    simp only [flatLeavesItem, List.mem_singleton, Prod.mk.injEq] at hm
    exact ⟨[], by simp [hm.1, data_append], Or.inl rfl⟩
  | list xs =>
    simp only [flatLeavesItem, List.mem_singleton, Prod.mk.injEq] at hm
    exact ⟨[], by simp [hm.1, data_append], Or.inl rfl⟩
  | tuple xs =>
    simp only [flatLeavesItem, List.mem_singleton, Prod.mk.injEq] at hm
    exact ⟨[], by simp [hm.1, data_append], Or.inl rfl⟩
  | none =>
    simp only [flatLeavesItem, List.mem_singleton, Prod.mk.injEq] at hm
    exact ⟨[], by simp [hm.1, data_append], Or.inl rfl⟩

end

mutual

/-- A non-empty dictionary in the round-trip domain has at least one leaf. -/
theorem flatLeaves_ne_nil : ∀ (d : Entries) (pre : String),
    goodEntries d = true → d ≠ [] → flatLeaves d pre ≠ [] := by
  intro d pre hg hne
  match d with
  | [] => exact absurd rfl hne
  | (k, v) :: rest =>
    obtain ⟨_, _, hv, _⟩ := goodEntries_cons hg
    have := flatLeavesItem_ne_nil k v pre hv
    simp only [flatLeaves, ne_eq, List.append_eq_nil]
    intro hcon
    exact this hcon.1

/-- An entry with a value in the round-trip domain contributes at least one
leaf. -/
theorem flatLeavesItem_ne_nil : ∀ (k : String) (v : PVal) (pre : String),
    goodVal v = true → flatLeavesItem k v pre ≠ [] := by
  intro k v pre hv
  cases v with
  | dict d =>
    obtain ⟨hne, hg⟩ := goodVal_dict hv
    simpa only [flatLeavesItem] using flatLeaves_ne_nil d (pre ++ k ++ "/") hg hne
  | float m e => simp [flatLeavesItem]
  | int n => simp [flatLeavesItem]
  | bool b => simp [flatLeavesItem]
  | str s' => simp [flatLeavesItem]
  | list xs => simp [flatLeavesItem]
  | tuple xs => simp [flatLeavesItem]
  | none => simp [flatLeavesItem]

end

/-- Leaves contributed by a dictionary's first entry and by the rest of the
dictionary have disjoint paths: the first path-segment after the prefix is
the (separator-free) entry key, and the keys are distinct. -/
theorem item_rest_disjoint {k : String} {v : PVal} {rest : Entries} {pre : String}
    (hg : goodEntries ((k, v) :: rest) = true) :
    ∀ p w₁ w₂, (p, w₁) ∈ flatLeavesItem k v pre → (p, w₂) ∈ flatLeaves rest pre → False := by
  intro p w₁ w₂ h1 h2
  obtain ⟨hk, hrest, _, hgrest⟩ := goodEntries_cons hg
  obtain ⟨s, hs, ht⟩ := flatLeavesItem_shape k v pre p w₁ h1
  obtain ⟨k₀, w₀, s', hk₀, hs', ht'⟩ := flatLeaves_shape rest pre p w₂ h2
  have hk₀free : slashFree k₀ = true := (goodEntries_mem hgrest hk₀).1
  have heq : k.data ++ s = k₀.data ++ s' := by
    have := hs.symm.trans hs'
    rw [List.append_assoc, List.append_assoc] at this
    exact List.append_cancel_left this
  obtain ⟨hkk, _⟩ := seg_disj (slashFree_spec hk) (slashFree_spec hk₀free) ht ht' heq
  exact hrest (k₀, w₀) hk₀ (str_ext hkk.symm)

mutual

/-- On the round-trip domain, the leaf paths of a dictionary are pairwise
distinct. -/
theorem flatLeaves_nodup : ∀ (d : Entries) (pre : String),
    goodEntries d = true → ((flatLeaves d pre).map Prod.fst).Nodup := by
  intro d pre hg
  match d with
  | [] => simp [flatLeaves]
  | (k, v) :: rest =>
    obtain ⟨_, _, hv, hgrest⟩ := goodEntries_cons hg
    rw [flatLeaves, List.map_append, List.nodup_append]
    refine ⟨flatLeavesItem_nodup k v pre hv, flatLeaves_nodup rest pre hgrest, ?_⟩
    intro p hp1 hp2
    obtain ⟨⟨p1, w1⟩, hm1, hpe1⟩ := List.mem_map.mp hp1
    obtain ⟨⟨p2, w2⟩, hm2, hpe2⟩ := List.mem_map.mp hp2
    exact item_rest_disjoint hg p w1 w2 (by simpa [← hpe1] using hm1) (by simpa [← hpe2] using hm2)

/-- On the round-trip domain, the leaf paths contributed by one entry are
pairwise distinct. -/
theorem flatLeavesItem_nodup : ∀ (k : String) (v : PVal) (pre : String),
    goodVal v = true → ((flatLeavesItem k v pre).map Prod.fst).Nodup := by
  intro k v pre hv
  cases v with
  | dict d =>
    obtain ⟨_, hg⟩ := goodVal_dict hv
    simpa only [flatLeavesItem] using flatLeaves_nodup d (pre ++ k ++ "/") hg
  | float m e => simp [flatLeavesItem]
  | int n => simp [flatLeavesItem]
  | bool b => simp [flatLeavesItem]
  | str s' => simp [flatLeavesItem]
  | list xs => simp [flatLeavesItem]
  | tuple xs => simp [flatLeavesItem]
  | none => simp [flatLeavesItem]

end

theorem dictKeys_append (d e : Entries) : dictKeys (d ++ e) = dictKeys d ++ dictKeys e := by
  simp [dictKeys]

/-- Setting a key not present in the dictionary appends the entry. -/
theorem dictSet_fresh : ∀ {d : Entries} {k : String} {v : PVal},
    k ∉ dictKeys d → dictSet d k v = d ++ [(k, v)] := by
  intro d
  induction d with
  | nil => intro k v _; rfl
  | cons kv rest ih =>
    intro k v h
    obtain ⟨k', v'⟩ := kv
    simp only [dictKeys, List.map_cons, List.mem_cons] at h
    rw [dictSet, if_neg (by simpa using fun hc => h (Or.inl hc.symm))]
    rw [ih (fun hc => h (Or.inr (by simpa [dictKeys] using hc)))]
    simp

/-- Updating with a dictionary whose keys are fresh and pairwise distinct
appends its entries. -/
theorem dictUpdate_fresh : ∀ {l d : Entries},
    (l.map Prod.fst).Nodup → (∀ q ∈ l.map Prod.fst, q ∉ dictKeys d) →
    dictUpdate d l = d ++ l := by
  intro l
  induction l with
  | nil => intro d _ _; simp [dictUpdate]
  | cons kv rest ih =>
    intro d hnd hfresh
    obtain ⟨q, w⟩ := kv
    simp only [List.map_cons, List.nodup_cons] at hnd
    have h1 : dictSet d q w = d ++ [(q, w)] :=
      dictSet_fresh (hfresh q (by simp))
    have h2 : dictUpdate (d ++ [(q, w)]) rest = (d ++ [(q, w)]) ++ rest := by
      apply ih hnd.2
      intro q' hq'
      rw [dictKeys_append]
      simp only [List.mem_append]
      rintro (hc | hc)
      · exact hfresh q' (by simp [hq']) hc
      · simp only [dictKeys, List.map_cons, List.map_nil, List.mem_singleton] at hc
        exact hnd.1 (hc ▸ hq')
    calc dictUpdate d ((q, w) :: rest)
        = dictUpdate (dictSet d q w) rest := rfl
      _ = dictUpdate (d ++ [(q, w)]) rest := by rw [h1]
      _ = (d ++ [(q, w)]) ++ rest := h2
      _ = d ++ ((q, w) :: rest) := by simp

/-- Looking up a present key in a dictionary with pairwise-distinct keys
yields its value. -/
theorem dictGet_of_nodup_mem : ∀ {l : Entries} {p : String} {v : PVal},
    (l.map Prod.fst).Nodup → (p, v) ∈ l → dictGet l p = some v := by
  intro l
  induction l with
  | nil => intro p v _ hm; simp at hm
  | cons kv rest ih =>
    intro p v hnd hm
    obtain ⟨k', v'⟩ := kv
    simp only [List.map_cons, List.nodup_cons] at hnd
    rcases List.mem_cons.mp hm with heq | hmem
    · obtain ⟨rfl, rfl⟩ := Prod.mk.injEq .. ▸ heq
      simp [dictGet]
    · have hne : k' ≠ p := by
        intro hc
        exact hnd.1 (hc ▸ List.mem_map.mpr ⟨(p, v), hmem, rfl⟩)
      rw [dictGet, if_neg hne]
      exact ih hnd.2 hmem

mutual

/-- On the round-trip domain (with fresh accumulator keys), the loop of
`flatten_dictionary` appends exactly the leaf map of the dictionary. -/
theorem flatten_loop_eq : ∀ (d : Entries) (pre : String) (acc : Entries),
    goodEntries d = true →
    (∀ p w, (p, w) ∈ flatLeaves d pre → p ∉ dictKeys acc) →
    flatten_dictionary_loop d pre "/" acc = acc ++ flatLeaves d pre := by
  intro d pre acc hg hfresh
  match d with
  | [] => simp [flatten_dictionary_loop, flatLeaves]
  | (k, v) :: rest =>
    obtain ⟨_, _, hv, hgrest⟩ := goodEntries_cons hg
    have hitem : flatten_dictionary_item k v pre "/" acc = acc ++ flatLeavesItem k v pre := by
      apply flatten_item_eq k v pre acc hv
      intro p w hm
      exact hfresh p w (by rw [flatLeaves, List.mem_append]; exact Or.inl hm)
    have hrest : flatten_dictionary_loop rest pre "/" (acc ++ flatLeavesItem k v pre) =
        (acc ++ flatLeavesItem k v pre) ++ flatLeaves rest pre := by
      apply flatten_loop_eq rest pre _ hgrest
      intro p w hm
      rw [dictKeys_append]
      simp only [List.mem_append]
      rintro (hc | hc)
      · exact hfresh p w (by rw [flatLeaves, List.mem_append]; exact Or.inr hm) hc
      · obtain ⟨⟨p1, w1⟩, hm1, hpe1⟩ := List.mem_map.mp hc
        exact item_rest_disjoint hg p w1 w (by simpa [← hpe1] using hm1) hm
    rw [flatten_dictionary_loop, hitem, hrest, flatLeaves, List.append_assoc]

/-- On the round-trip domain (with fresh accumulator keys), one iteration of
`flatten_dictionary` appends exactly the entry's leaves. -/
theorem flatten_item_eq : ∀ (k : String) (v : PVal) (pre : String) (acc : Entries),
    goodVal v = true →
    (∀ p w, (p, w) ∈ flatLeavesItem k v pre → p ∉ dictKeys acc) →
    flatten_dictionary_item k v pre "/" acc = acc ++ flatLeavesItem k v pre := by
  intro k v pre acc hv hfresh
  cases v with
  | dict d =>
    obtain ⟨hne, hg⟩ := goodVal_dict hv
    have hnested : flatten_dictionary_loop d (pre ++ k ++ "/") "/" [] =
        flatLeaves d (pre ++ k ++ "/") := by
      have := flatten_loop_eq d (pre ++ k ++ "/") [] hg (by simp [dictKeys])
      simpa using this
    have hnonnil : flatLeaves d (pre ++ k ++ "/") ≠ [] :=
      flatLeaves_ne_nil d (pre ++ k ++ "/") hg hne
    rw [flatten_dictionary_item, hnested, if_neg (by simpa [List.isEmpty_iff] using hnonnil)]
    rw [dictUpdate_fresh (flatLeaves_nodup d (pre ++ k ++ "/") hg) ?_]
    · simp [flatLeavesItem]
    · intro q hq
      obtain ⟨⟨p1, w1⟩, hm1, hpe1⟩ := List.mem_map.mp hq
      exact hfresh q w1 (by simpa [flatLeavesItem, ← hpe1] using hm1)
  | float m e =>
    rw [flatten_dictionary_item,
      dictSet_fresh (hfresh (pre ++ k) (.float m e) (by simp [flatLeavesItem]))]
    simp [flatLeavesItem]
  | int n =>
    rw [flatten_dictionary_item,
      dictSet_fresh (hfresh (pre ++ k) (.int n) (by simp [flatLeavesItem]))]
    simp [flatLeavesItem]
  | bool b =>
    rw [flatten_dictionary_item,
      dictSet_fresh (hfresh (pre ++ k) (.bool b) (by simp [flatLeavesItem]))]
    simp [flatLeavesItem]
  | str s' =>
    rw [flatten_dictionary_item,
      dictSet_fresh (hfresh (pre ++ k) (.str s') (by simp [flatLeavesItem]))]
    simp [flatLeavesItem]
  | list xs =>
    rw [flatten_dictionary_item, ite_self,
      dictSet_fresh (hfresh (pre ++ k) (.list xs) (by simp [flatLeavesItem]))]
    simp [flatLeavesItem]
  | tuple xs =>
    rw [flatten_dictionary_item, ite_self,
      dictSet_fresh (hfresh (pre ++ k) (.tuple xs) (by simp [flatLeavesItem]))]
    simp [flatLeavesItem]
  | none => simp [goodVal] at hv

end

mutual

/-- If the flat dictionary maps every leaf path to its leaf value, overlay
reproduces the skeleton exactly. -/
theorem unflatten_loop_eq : ∀ (d F : Entries) (pre : String),
    goodEntries d = true →
    (∀ p w, (p, w) ∈ flatLeaves d pre → dictGet F p = some w) →
    nested_from_flat_dictionary_loop d F pre "/" = d := by
  intro d F pre hg hlook
  match d with
  | [] => rfl
  | (k, v) :: rest =>
    obtain ⟨_, _, hv, hgrest⟩ := goodEntries_cons hg
    rw [nested_from_flat_dictionary_loop]
    rw [unflatten_item_eq k v F pre hv
      (fun p w hm => hlook p w (by rw [flatLeaves, List.mem_append]; exact Or.inl hm))]
    rw [unflatten_loop_eq rest F pre hgrest
      (fun p w hm => hlook p w (by rw [flatLeaves, List.mem_append]; exact Or.inr hm))]

/-- If the flat dictionary maps every leaf path of this entry to its leaf
value, the entry's value is reproduced exactly. -/
theorem unflatten_item_eq : ∀ (k : String) (v : PVal) (F : Entries) (pre : String),
    goodVal v = true →
    (∀ p w, (p, w) ∈ flatLeavesItem k v pre → dictGet F p = some w) →
    nested_from_flat_item k v F pre "/" = v := by
  intro k v F pre hv hlook
  cases v with
  | dict d =>
    obtain ⟨hne, hg⟩ := goodVal_dict hv
    have hr : nested_from_flat_dictionary_loop d F (pre ++ k ++ "/") "/" = d :=
      unflatten_loop_eq d F (pre ++ k ++ "/") hg
        (fun p w hm => hlook p w (by simpa [flatLeavesItem] using hm))
    rw [nested_from_flat_item, hr]
    simp [hne]
  | float m e =>
    have hred : nested_from_flat_item k (.float m e) F pre "/" =
        (dictGet F (pre ++ k)).getD (.float m e) := rfl
    rw [hred, hlook (pre ++ k) (.float m e) (by simp [flatLeavesItem])]
    rfl
  | int n =>
    have hred : nested_from_flat_item k (.int n) F pre "/" =
        (dictGet F (pre ++ k)).getD (.int n) := rfl
    rw [hred, hlook (pre ++ k) (.int n) (by simp [flatLeavesItem])]
    rfl
  | bool b =>
    have hred : nested_from_flat_item k (.bool b) F pre "/" =
        (dictGet F (pre ++ k)).getD (.bool b) := rfl
    rw [hred, hlook (pre ++ k) (.bool b) (by simp [flatLeavesItem])]
    rfl
  | str s' =>
    have hred : nested_from_flat_item k (.str s') F pre "/" =
        (dictGet F (pre ++ k)).getD (.str s') := rfl
    rw [hred, hlook (pre ++ k) (.str s') (by simp [flatLeavesItem])]
    rfl
  | list xs =>
    have hred : nested_from_flat_item k (.list xs) F pre "/" =
        (dictGet F (pre ++ k)).getD (.list xs) := rfl
    rw [hred, hlook (pre ++ k) (.list xs) (by simp [flatLeavesItem])]
    rfl
  | tuple xs =>
    have hred : nested_from_flat_item k (.tuple xs) F pre "/" =
        (dictGet F (pre ++ k)).getD (.tuple xs) := rfl
    rw [hred, hlook (pre ++ k) (.tuple xs) (by simp [flatLeavesItem])]
    rfl
  | none => simp [goodVal] at hv

end

/-- Round trip on the separator-free domain: overlaying a dictionary's own
flattening back onto it reproduces it exactly. -/
theorem flatten_unflatten_round_trip (d : Entries) (h : goodEntries d = true) :
    nested_from_flat_dictionary d (flatten_dictionary d "" "/") "" "/" = d := by
  have hf : flatten_dictionary d "" "/" = flatLeaves d "" := by
    have := flatten_loop_eq d "" [] h (by simp [dictKeys])
    simpa [flatten_dictionary] using this
  have hnd := flatLeaves_nodup d "" h
  apply unflatten_loop_eq d _ "" h
  intro p w hm
  rw [hf]
  exact dictGet_of_nodup_mem hnd hm

theorem run_ops_resolved {V E : Type} (callback : Nat → Except E (Option V)) :
    ∀ (n : Nat) (c : Nat) (v : V),
    run_ops callback n ⟨some v, c⟩ = (List.replicate n (.ok (some v)), ⟨some v, c⟩) := by
  intro n
  induction n with
  | zero => intro c v; rfl
  | succ m ih =>
    intro c v
    simp [run_ops, load_object, ih, List.replicate_succ]

theorem post_set_callback_const {α : Type} (update_obj : α) (root : Entries) :
    ∀ l : List String, post_set_callback update_obj root l = [(update_obj, root)] := by
  intro l
  induction l with
  | nil => rfl
  | cons p ps ih => simpa [post_set_callback] using ih

theorem dictSet_ne_nil (d : Entries) (k : String) (v : PVal) : dictSet d k v ≠ [] := by
  cases d with
  | nil => simp [dictSet]
  | cons kv rest =>
    obtain ⟨k', v'⟩ := kv
    rw [dictSet]
    split <;> simp

theorem dictUpdate_ne_nil : ∀ (l d : Entries), d ≠ [] → dictUpdate d l ≠ [] := by
  intro l
  induction l with
  | nil => intro d h; simpa [dictUpdate] using h
  | cons kv rest ih =>
    intro d _
    have : dictUpdate d (kv :: rest) = dictUpdate (dictSet d kv.1 kv.2) rest := rfl
    rw [this]
    exact ih _ (dictSet_ne_nil d kv.1 kv.2)

theorem flatten_item_ne_nil (k : String) (v : PVal) (pre sep : String) (acc : Entries) :
    flatten_dictionary_item k v pre sep acc ≠ [] := by
  cases v with
  | dict d =>
    rw [flatten_dictionary_item]
    split
    · exact dictSet_ne_nil acc k (.dict [])
    · rename_i hne
      match hm : flatten_dictionary_loop d (pre ++ k ++ sep) sep [] with
      | [] => rw [hm] at hne; simp at hne
      | q :: rest =>
        have : dictUpdate acc (q :: rest) = dictUpdate (dictSet acc q.1 q.2) rest := rfl
        rw [this]
        exact dictUpdate_ne_nil rest _ (dictSet_ne_nil acc q.1 q.2)
  | float m e => exact dictSet_ne_nil acc (pre ++ k) _
  | int n => exact dictSet_ne_nil acc (pre ++ k) _
  | bool b => exact dictSet_ne_nil acc (pre ++ k) _
  | str s' => exact dictSet_ne_nil acc (pre ++ k) _
  | list xs => rw [flatten_dictionary_item, ite_self]; exact dictSet_ne_nil acc (pre ++ k) _
  | tuple xs => rw [flatten_dictionary_item, ite_self]; exact dictSet_ne_nil acc (pre ++ k) _
  | none => exact dictSet_ne_nil acc (pre ++ k) _

theorem flatten_loop_ne_nil : ∀ (d : Entries) (pre sep : String) (acc : Entries),
    d ≠ [] → flatten_dictionary_loop d pre sep acc ≠ [] := by
  intro d
  induction d with
  | nil => intro _ _ _ h; exact absurd rfl h
  | cons kv rest ih =>
    intro pre sep acc _
    obtain ⟨k, v⟩ := kv
    rw [flatten_dictionary_loop]
    cases rest with
    | nil => exact flatten_item_ne_nil k v pre sep acc
    | cons kv' rest' => exact ih pre sep _ (by simp)

theorem dotJoin_append_last (xs : List String) (p k : String) :
    dotJoin (xs ++ [p]) k = dotJoin xs (p ++ "." ++ k) := by
  induction xs with
  | nil => rfl
  | cons q qs ih => simp [dotJoin, ih]

/-- C1 counterexample.  A producer that SUCCEEDS by returning Python's
`None` is re-invoked on every forwarded operation: `_load_object` tests
`obj is None` (line 513), so the `None` assigned at line 516 is
indistinguishable from an unresolved handle.  Two truthiness operations on
such a handle both succeed, yet the call counter reads 2, refuting
"the producer has been invoked exactly once". -/
theorem claim1_counterexample :
    (run_ops (fun _ => (.ok Option.none : Except Unit (Option Nat))) 2 initLazy).1 =
      [.ok Option.none, .ok Option.none] ∧
    (run_ops (fun _ => (.ok Option.none : Except Unit (Option Nat))) 2 initLazy).2.calls = 2 ∧
    (run_ops (fun _ => (.ok Option.none : Except Unit (Option Nat))) 2 initLazy).2.wrapped =
      Option.none :=
  ⟨rfl, rfl, rfl⟩

/-- C1 (amended).  Resolution-once holds for producers that succeed with a
value other than `None`: any positive number of forwarded operations on a
fresh handle invokes such a producer exactly once, and every operation
observes that same resolved value.  (A producer succeeding with `None` is
re-invoked each time, per the counterexample.) -/
theorem claim1_resolution_once_amended {V E : Type} (callback : Nat → Except E (Option V))
    (v : V) (hsucc : callback 0 = .ok (some v)) (n : Nat) (hn : 1 ≤ n) :
    (run_ops callback n initLazy).1 = List.replicate n (.ok (some v)) ∧
    (run_ops callback n initLazy).2.calls = 1 ∧
    (run_ops callback n initLazy).2.wrapped = some v := by
  obtain ⟨m, rfl⟩ : ∃ m, n = m + 1 := ⟨n - 1, by omega⟩
  have h1 : load_object callback (initLazy : LazyState V) = (.ok (some v), ⟨some v, 1⟩) := by
    simp [load_object, initLazy, hsucc]
  simp [run_ops, h1, run_ops_resolved, List.replicate_succ]

/-- Witness for the amended C1 at a concrete producer and three operations. -/
theorem claim1_resolution_once_amended_witness :
    (run_ops (fun _ => (.ok (some 5) : Except Unit (Option Nat))) 3 initLazy).1 =
      List.replicate 3 (.ok (some 5)) ∧
    (run_ops (fun _ => (.ok (some 5) : Except Unit (Option Nat))) 3 initLazy).2.calls = 1 ∧
    (run_ops (fun _ => (.ok (some 5) : Except Unit (Option Nat))) 3 initLazy).2.wrapped =
      some 5 :=
  claim1_resolution_once_amended (fun _ => .ok (some 5)) 5 rfl 3 (by omega)

/-- C2.  Producer failure: the exception of a raising producer propagates
unmodified to the operation that forced resolution, nothing is cached
(`_wrapped` stays `None`) and the producer has been invoked once; the next
operation invokes the producer again — caching the result only if this
retry succeeds. -/
theorem claim2_producer_failure {V E : Type} (callback : Nat → Except E (Option V)) (e : E)
    (hfail : callback 0 = .error e) :
    load_object callback (initLazy : LazyState V) = (.error e, ⟨Option.none, 1⟩) ∧
    (∀ v, callback 1 = .ok v →
      run_ops callback 2 initLazy = ([.error e, .ok v], ⟨v, 2⟩)) ∧
    (∀ e', callback 1 = .error e' →
      run_ops callback 2 initLazy = ([.error e, .error e'], ⟨Option.none, 2⟩)) := by
  have h1 : load_object callback (initLazy : LazyState V) = (.error e, ⟨Option.none, 1⟩) := by
    simp [load_object, initLazy, hfail]
  have e1 : run_ops callback 2 initLazy =
      ((load_object callback initLazy).1 ::
        (run_ops callback 1 (load_object callback initLazy).2).1,
       (run_ops callback 1 (load_object callback initLazy).2).2) := rfl
  have e2 : ∀ s : LazyState V, run_ops callback 1 s =
      ([(load_object callback s).1], (load_object callback s).2) := fun _ => rfl
  refine ⟨h1, fun v hv => ?_, fun e' he' => ?_⟩
  · have h2 : load_object callback (⟨Option.none, 1⟩ : LazyState V) = (.ok v, ⟨v, 2⟩) := by
      simp [load_object, hv]
    rw [e1, h1, e2, h2]
  · have h2 : load_object callback (⟨Option.none, 1⟩ : LazyState V) =
        (.error e', ⟨Option.none, 2⟩) := by
      simp [load_object, he']
    rw [e1, h1, e2, h2]

/-- Witness for C2 at a producer failing first and succeeding on retry. -/
theorem claim2_producer_failure_witness :
    load_object
      (fun k => if k = 0 then (.error "boom" : Except String (Option Nat)) else .ok (some 7))
      (initLazy : LazyState Nat) = (.error "boom", ⟨Option.none, 1⟩) ∧
    run_ops
      (fun k => if k = 0 then (.error "boom" : Except String (Option Nat)) else .ok (some 7))
      2 initLazy = ([.error "boom", .ok (some 7)], ⟨some 7, 2⟩) := by
  have h := claim2_producer_failure
    (fun k => if k = 0 then (.error "boom" : Except String (Option Nat)) else .ok (some 7))
    "boom" rfl
  exact ⟨h.1, h.2.1 (some 7) rfl⟩

/-- C3 counterexample.  The claim says `castFromTag("yes", "bool")` raises;
in the code the `ValueError` raised by `convert_bool` is caught by the
`try/except` around `t(value)` (lines 194-198) and the original string is
returned silently. -/
theorem claim3_counterexample :
    cast_basic_type (.str "yes") "bool" = .str "yes" ∧ convert_bool (.str "yes") = .error () :=
  ⟨rfl, rfl⟩

/-- C3 (amended).  `castFromTag` with tag `"bool"` returns `True` for
`"true"` (case-insensitive, whitespace-stripped), `False` for `"false"` or
the empty string, and returns the input string unchanged for every other
input string: the underlying converter raises, but the cast catches the
error and silently falls back to the original string. -/
theorem claim3_boolean_cast_amended (s : String) :
    (pyLower (pyStrip s) = "true" → cast_basic_type (.str s) "bool" = .bool true) ∧
    (pyLower (pyStrip s) = "false" ∨ pyLower (pyStrip s) = "" →
      cast_basic_type (.str s) "bool" = .bool false) ∧
    (pyLower (pyStrip s) ≠ "true" → pyLower (pyStrip s) ≠ "false" → pyLower (pyStrip s) ≠ "" →
      cast_basic_type (.str s) "bool" = .str s) := by
  have hred : cast_basic_type (.str s) "bool" =
      (match convert_bool (.str s) with
       | .ok r => r
       | .error _ => .str s) := rfl
  refine ⟨fun h => ?_, fun h => ?_, fun h1 h2 h3 => ?_⟩
  · rw [hred]
    simp [convert_bool, h]
  · rw [hred]
    rcases h with h | h <;> simp [convert_bool, h]
  · rw [hred]
    simp [convert_bool, h1, h2, h3]

/-- Witness for the amended C3 at `" True"`, `""` and `"yes"`. -/
theorem claim3_boolean_cast_amended_witness :
    cast_basic_type (.str " True") "bool" = .bool true ∧
    cast_basic_type (.str "") "bool" = .bool false ∧
    cast_basic_type (.str "yes") "bool" = .str "yes" :=
  ⟨(claim3_boolean_cast_amended " True").1 (by decide),
   (claim3_boolean_cast_amended "").2.1 (Or.inr (by decide)),
   (claim3_boolean_cast_amended "yes").2.2 (by decide) (by decide) (by decide)⟩

/-- C4 counterexample.  For `v = {"a": 1, "b": 2}`, `str(v)` is
`"{'a': 1, 'b': 2}"`, which `json.loads` rejects (single quotes); the
legacy fallback wraps it in brackets, `yaml.load` yields `[{'a': 1,
'b': 2}]`, and the `dict` constructor iterates the inner two-key dict as
its two KEYS, producing `{'a': 'b'}` — not equal to `v`. -/
theorem claim4_counterexample :
    cast_basic_type (.str (pyStr (.dict [("a", .int 1), ("b", .int 2)])))
      (get_basic_type (.dict [("a", .int 1), ("b", .int 2)])) = .dict [("a", .str "b")] ∧
    pyEq (cast_basic_type (.str (pyStr (.dict [("a", .int 1), ("b", .int 2)])))
      (get_basic_type (.dict [("a", .int 1), ("b", .int 2)])))
      (.dict [("a", .int 1), ("b", .int 2)]) = false :=
  ⟨rfl, rfl⟩

/-- C4 (amended).  Cast idempotence `castFromTag(str(v), typeTag(v)) == v`
holds for `v` in {`True`, `42`, `3.14`, `"x"`, `[1, 2, 3]`} but fails for
`{"a": 1, "b": 2}`, where the cast returns `{"a": "b"}` instead. -/
theorem claim4_cast_idempotence_amended :
    pyEq (cast_basic_type (.str (pyStr (.bool true))) (get_basic_type (.bool true)))
      (.bool true) = true ∧
    pyEq (cast_basic_type (.str (pyStr (.int 42))) (get_basic_type (.int 42)))
      (.int 42) = true ∧
    pyEq (cast_basic_type (.str (pyStr (.float 314 2))) (get_basic_type (.float 314 2)))
      (.float 314 2) = true ∧
    pyEq (cast_basic_type (.str (pyStr (.str "x"))) (get_basic_type (.str "x")))
      (.str "x") = true ∧
    pyEq (cast_basic_type (.str (pyStr (.list [.int 1, .int 2, .int 3])))
      (get_basic_type (.list [.int 1, .int 2, .int 3])))
      (.list [.int 1, .int 2, .int 3]) = true ∧
    cast_basic_type (.str (pyStr (.dict [("a", .int 1), ("b", .int 2)])))
      (get_basic_type (.dict [("a", .int 1), ("b", .int 2)])) = .dict [("a", .str "b")] :=
  ⟨rfl, rfl, rfl, rfl, rfl, rfl⟩

/-- C5 counterexample.  The mapping `{"a": {"b": 1}, "a/b": 2}` has depth 2
and only primitive leaves, yet the flattened path of the leaf `b` collides
with the sibling key `"a/b"`, so the overlay changes the nested leaf from
`1` to `2` and the round trip fails. -/
theorem claim5_counterexample :
    nested_from_flat_dictionary [("a", .dict [("b", .int 1)]), ("a/b", .int 2)]
      (flatten_dictionary [("a", .dict [("b", .int 1)]), ("a/b", .int 2)] "" "/") "" "/" =
      [("a", .dict [("b", .int 2)]), ("a/b", .int 2)] ∧
    pyEq (.dict (nested_from_flat_dictionary [("a", .dict [("b", .int 1)]), ("a/b", .int 2)]
      (flatten_dictionary [("a", .dict [("b", .int 1)]), ("a/b", .int 2)] "" "/") "" "/"))
      (.dict [("a", .dict [("b", .int 1)]), ("a/b", .int 2)]) = false :=
  ⟨rfl, rfl⟩

/-- C5 (amended).  For every nested mapping whose keys (at every level) are
separator-free and pairwise distinct and whose leaves are primitive scalars
or sequences of primitive scalars (nested mappings being non-empty),
overlaying the flattened path→value mapping back onto the mapping as its
own skeleton reproduces it exactly. -/
theorem claim5_round_trip_amended (d : Entries) (h : goodEntries d = true) :
    nested_from_flat_dictionary d (flatten_dictionary d "" "/") "" "/" = d :=
  flatten_unflatten_round_trip d h

/-- Witness for the amended C5 at a depth-2 mapping. -/
theorem claim5_round_trip_amended_witness :
    goodEntries [("a", .dict [("b", .int 1), ("d", .list [.int 1, .int 2])]), ("c", .str "x")]
      = true ∧
    nested_from_flat_dictionary
      [("a", .dict [("b", .int 1), ("d", .list [.int 1, .int 2])]), ("c", .str "x")]
      (flatten_dictionary
        [("a", .dict [("b", .int 1), ("d", .list [.int 1, .int 2])]), ("c", .str "x")] "" "/")
      "" "/" =
      [("a", .dict [("b", .int 1), ("d", .list [.int 1, .int 2])]), ("c", .str "x")] :=
  ⟨by decide, claim5_round_trip_amended _ (by decide)⟩

/-- C6.  On a notifying mapping, a single write at any nesting depth fires
the user callback exactly once, with the (updated) root mapping as its
argument — the nested child's `_update_func` chain only forwards to the
root's `_set_callback`, discarding the intermediate arguments; and a bulk
`update()` fires the callback exactly once after all entries are merged. -/
theorem claim6_single_notification {α : Type} (update_obj : α) (root r : Entries)
    (path : List String) (k : String) (v : PVal) (e : Entries)
    (h : setAtPath root path k v = some r) :
    post_setitem update_obj root path k v = some (r, [(update_obj, r)]) ∧
    post_update update_obj root e = (dictUpdate root e, [(update_obj, dictUpdate root e)]) := by
  constructor
  · rw [post_setitem, h]
    simp [post_set_callback_const]
  · rw [post_update, post_set_callback_const]

/-- Witness for C6: a depth-1 nested write and a bulk update, each with one
notification carrying the updated root. -/
theorem claim6_single_notification_witness :
    post_setitem (0 : Nat) [("a", .dict [("b", .int 1)])] ["a"] "b" (.int 2) =
      some ([("a", .dict [("b", .int 2)])], [(0, [("a", .dict [("b", .int 2)])])]) ∧
    post_update (0 : Nat) [("a", .dict [("b", .int 1)])] [("c", .int 3)] =
      (dictUpdate [("a", .dict [("b", .int 1)])] [("c", .int 3)],
       [(0, dictUpdate [("a", .dict [("b", .int 1)])] [("c", .int 3)])]) :=
  claim6_single_notification 0 [("a", .dict [("b", .int 1)])] [("a", .dict [("b", .int 2)])]
    ["a"] "b" (.int 2) [("c", .int 3)] rfl

/-- C7.  On a filtering mapping, a write whose callback returns nothing
(falsy) leaves the storage exactly as it was and raises no error, while a
returned `(key, value)` pair is stored under the possibly rewritten key. -/
theorem claim7_filtering_noop {α : Type} (update_obj : α)
    (update_func : α → String × PVal → Option (String × PVal))
    (d : Entries) (k : String) (v : PVal) :
    (update_func update_obj (k, v) = Option.none →
      pre_setitem update_obj update_func d k v = d) ∧
    (∀ k' v', update_func update_obj (k, v) = some (k', v') →
      pre_setitem update_obj update_func d k v = dictSet d k' v') := by
  constructor
  · intro h
    rw [pre_setitem, pre_set_callback, h]
  · intro k' v' h
    rw [pre_setitem, pre_set_callback, h]

/-- Witness for C7 with the callback of the spec's example, which rejects
any value greater than ten: writing `20` is dropped, writing `5` stores. -/
theorem claim7_filtering_noop_witness :
    pre_setitem () (fun _ kv =>
        match kv.2 with
        | .int n => if n > 10 then Option.none else some kv
        | _ => some kv)
      [("y", .int 1)] "x" (.int 20) = [("y", .int 1)] ∧
    pre_setitem () (fun _ kv =>
        match kv.2 with
        | .int n => if n > 10 then Option.none else some kv
        | _ => some kv)
      [("y", .int 1)] "x" (.int 5) = dictSet [("y", .int 1)] "x" (.int 5) :=
  ⟨(claim7_filtering_noop () _ [("y", .int 1)] "x" (.int 20)).1 rfl,
   (claim7_filtering_noop () _ [("y", .int 1)] "x" (.int 5)).2 "x" (.int 5) rfl⟩

/-- C8.  A write of key `k` into a filtering proxy nested under the
wrapping keys `ancestor_keys` (innermost key first) reaches the owner's
callback through the `_nested_callback` chain with the fully dotted path —
one dotted segment per nesting level — as its key, and the written value
unchanged. -/
theorem claim8_nested_path {α : Type} (update_obj : α)
    (update_func : α → String × PVal → Option (String × PVal))
    (ancestor_keys : List String) (k : String) (v : PVal) :
    pre_set_callback_chain update_obj update_func ancestor_keys (k, v) =
      pre_set_callback update_obj update_func (dotJoin ancestor_keys.reverse k, v) := by
  induction ancestor_keys generalizing k with
  | nil => rfl
  | cons p ancestors ih =>
    rw [pre_set_callback_chain, ih (p ++ "." ++ k)]
    rw [List.reverse_cons, dotJoin_append_last]
    cases hres : update_func update_obj (dotJoin ancestors.reverse (p ++ "." ++ k), v) <;>
      simp [pre_set_callback, hres]

/-- C9.  A typed deferred handle answers the `__class__` query with the
DECLARED type, without invoking the producer (the resolution state is
untouched), and its constructor registers nothing in the process-wide
remote-reference registry (unlike `LazyEvalWrapper.__init__`, which appends
a supplied remote reference). -/
theorem claim9_typed_masquerade {V E R : Type} (class_type : String)
    (callback : Nat → Except E (Option V)) (s : LazyState V) (registry : List R) (r : R) :
    typed_getattribute class_type callback s "__class__" =
      (.ok (.classType class_type), s) ∧
    ((typed_getattribute class_type callback s "__class__").2).calls = s.calls ∧
    typed_init_registry registry = registry ∧
    lazy_init_registry (some r) registry = registry ++ [r] := by
  refine ⟨?_, ?_, rfl, rfl⟩ <;> rfl

/-- C10 counterexample.  Flattening `{"a": {"b": {}}}` stores the empty
nested mapping under the BARE key `"b"` (line 264 writes `flat_dict[k]`,
without the prefix), not under its path `"a/b"`. -/
theorem claim10_counterexample :
    flatten_dictionary [("a", .dict [("b", .dict [])])] "" "/" = [("b", .dict [])] ∧
    dictGet (flatten_dictionary [("a", .dict [("b", .dict [])])] "" "/") "a/b" = Option.none :=
  ⟨rfl, rfl⟩

/-- C10 (amended).  Flatten places scalar and sequence entries under the
prefixed key `pre + k`, recurses into non-empty nested mappings with the
extended prefix `pre + k + sep`, and preserves an empty nested mapping as
an explicit empty-mapping leaf under its BARE key `k` (without the prefix),
so every key of the result except empty-mapping leaves reflects the value's
full nesting path. -/
theorem claim10_flatten_paths_amended (k pre sep : String) (acc : Entries) :
    (∀ v, isBasicScalar v = true →
      flatten_dictionary_item k v pre sep acc = dictSet acc (pre ++ k) v) ∧
    (∀ xs, flatten_dictionary_item k (.list xs) pre sep acc =
      dictSet acc (pre ++ k) (.list xs)) ∧
    (∀ xs, flatten_dictionary_item k (.tuple xs) pre sep acc =
      dictSet acc (pre ++ k) (.tuple xs)) ∧
    (∀ d', d' ≠ [] →
      flatten_dictionary_item k (.dict d') pre sep acc =
        dictUpdate acc (flatten_dictionary d' (pre ++ k ++ sep) sep)) ∧
    flatten_dictionary_item k (.dict []) pre sep acc = dictSet acc k (.dict []) := by
  refine ⟨fun v hv => ?_, fun xs => ?_, fun xs => ?_, fun d' hd' => ?_, rfl⟩
  · cases v <;> simp [isBasicScalar] at hv <;> rfl
  · rw [flatten_dictionary_item, ite_self]
  · rw [flatten_dictionary_item, ite_self]
  · rw [flatten_dictionary_item,
      if_neg (by simpa [List.isEmpty_iff] using flatten_loop_ne_nil d' (pre ++ k ++ sep) sep [] hd')]
    rfl

/-- Witness for the amended C10: a scalar entry, a non-empty nested
mapping, and an empty nested mapping. -/
theorem claim10_flatten_paths_amended_witness :
    flatten_dictionary_item "k" (.int 5) "p/" "/" [] = dictSet [] ("p/" ++ "k") (.int 5) ∧
    flatten_dictionary_item "a" (.dict [("b", .int 1)]) "" "/" [] =
      dictUpdate [] (flatten_dictionary [("b", .int 1)] ("" ++ "a" ++ "/") "/") ∧
    flatten_dictionary_item "a" (.dict []) "" "/" [] = dictSet [] "a" (.dict []) :=
  ⟨(claim10_flatten_paths_amended "k" "p/" "/" []).1 (.int 5) rfl,
   (claim10_flatten_paths_amended "a" "" "/" []).2.2.2.1 [("b", .int 1)] (by simp),
   (claim10_flatten_paths_amended "a" "" "/" []).2.2.2.2⟩
